import Mathlib

/-!
Verification of the volby.cz election scraper (main.py).

The program downloads the result pages of the 2017 Czech parliamentary
election for one territorial unit, extracts per-municipality tallies and
writes them to a CSV file.  We embed the parsed-HTML data model, the five
program functions (validate_arguments, get_obec_links, get_party_names,
parse_obec_data, save_to_csv) and the orchestrating main function, and
prove the stated properties about them.

HTML documents are modelled as node trees; BeautifulSoup's find / find_all
return the matching descendants of a node in document (depth-first,
preorder) order.
-/

namespace Volby

/-- A parsed HTML node: an element with a tag, attributes and children,
or a text node.  This is the tree `BeautifulSoup(html, "html.parser")`
produces; attribute values are kept as the raw strings of the markup. -/
inductive Node where
  | elem (tag : String) (attrs : List (String × String)) (children : List Node)
  | text (s : String)

/-- Python str.isspace characters that occur in practice (str.strip with no
argument removes these from both ends; the non-breaking space U+00A0 is
whitespace for Python). -/
def pyIsSpace (c : Char) : Bool :=
  c = ' ' || c = '\t' || c = '\n' || c = '\r' || c = '\x0b' ||
  c = '\x0c' || c = '\u0085' || c = '\u00A0'

/-- Python str.strip(): drop leading and trailing whitespace. -/
def pyStrip (s : String) : String :=
  ⟨((s.data.dropWhile pyIsSpace).reverse.dropWhile pyIsSpace).reverse⟩

/-- Python str.startswith. -/
def pyStartsWith (s pre : String) : Bool :=
  pre.data.isPrefixOf s.data

/-- Python str.endswith. -/
def pyEndsWith (s suf : String) : Bool :=
  suf.data.isSuffixOf s.data

/-- Splitting a string on runs of whitespace (Python str.split() with no
argument, and BeautifulSoup's tokenisation of multi-valued attributes
such as class and headers). -/
def splitWsAux : List Char → List Char → List String
  | [], acc => if acc.isEmpty then [] else [⟨acc.reverse⟩]
  | c :: cs, acc =>
      if pyIsSpace c then
        if acc.isEmpty then splitWsAux cs []
        else (⟨acc.reverse⟩ : String) :: splitWsAux cs []
      else splitWsAux cs (c :: acc)

def splitWs (s : String) : List String := splitWsAux s.data []

/-- The text `.strip().replace(CHR(160), EMPTY)` cleanup applied to every
extracted cell value: strip the ends, then delete every non-breaking
space. -/
def pyClean (s : String) : String :=
  ⟨(pyStrip s).data.filter (fun c => c ≠ '\u00A0')⟩

mutual

/-- All descendants of a node satisfying p, in document order
(BeautifulSoup's find_all: the node itself is not included). -/
def findAllNode (p : Node → Bool) : Node → List Node
  | .text _ => []
  | .elem _ _ cs => findAllChildren p cs

/-- All nodes of a forest satisfying p, in document order: each root is
listed before its descendants. -/
def findAllChildren (p : Node → Bool) : List Node → List Node
  | [] => []
  | c :: cs => (if p c then [c] else []) ++ findAllNode p c ++ findAllChildren p cs

end

/-- The first descendant satisfying p (BeautifulSoup's find). -/
def findFirst (p : Node → Bool) (n : Node) : Option Node :=
  (findAllNode p n).head?

mutual

/-- The concatenated text of a node (BeautifulSoup's .text). -/
def Node.innerText : Node → String
  | .text s => s
  | .elem _ _ cs => innerTextChildren cs

def innerTextChildren : List Node → String
  | [] => ""
  | c :: cs => c.innerText ++ innerTextChildren cs

end

/-- The value of an attribute, when present (tag.get(k)). -/
def Node.attr (n : Node) (k : String) : Option String :=
  match n with
  | .text _ => none
  | .elem _ attrs _ => (attrs.find? (fun a => a.1 = k)).map (fun a => a.2)

/-- The tag of an element node. -/
def Node.tagOf : Node → Option String
  | .text _ => none
  | .elem t _ _ => some t

/-- The whitespace-split tokens of the class attribute (BeautifulSoup
stores class as a multi-valued attribute). -/
def Node.classes (n : Node) : List String :=
  splitWs ((n.attr "class").getD "")

/-- The whitespace-split tokens of the headers attribute (multi-valued on
td elements; td.get("headers", EMPTY) with the string case split). -/
def Node.headersTokens (n : Node) : List String :=
  splitWs ((n.attr "headers").getD "")

/-- A td element carrying the given CSS class
(soup.find("td", class_=c) matches when c is one of the class tokens). -/
def isTdClass (c : String) (n : Node) : Bool :=
  n.tagOf = some "td" && (n.classes).contains c

/-- A td element whose headers tokens contain h exactly
(soup.find("td", headers=h) on a multi-valued headers attribute). -/
def isTdHeaders (h : String) (n : Node) : Bool :=
  n.tagOf = some "td" && (n.headersTokens).contains h

def isTag (t : String) (n : Node) : Bool := n.tagOf = some t

/-- All tr descendants of a node, in document order. -/
def findTrs (n : Node) : List Node := findAllNode (isTag "tr") n

/-- All table descendants of a node, in document order. -/
def findTables (n : Node) : List Node := findAllNode (isTag "table") n

/-- Split a character list at the first occurrence of the substring
separating a URL scheme from the rest (colon slash slash); none when the
list has no such occurrence. -/
def breakScheme : List Char → Option (List Char × List Char)
  | [] => none
  | c :: rest =>
    if c = ':' ∧ rest.head? = some '/' ∧ rest.tail.head? = some '/' then
      some ([], rest.tail.tail)
    else (breakScheme rest).map (fun p => (c :: p.1, p.2))

/-- A URL that carries its own scheme and authority. -/
def isAbsUrl (s : String) : Bool := (breakScheme s.data).isSome

/-- Everything up to and including the last slash of a path. -/
def dropLastSeg (l : List Char) : List Char :=
  (l.reverse.dropWhile (fun c => c ≠ '/')).reverse

/-- Modelled from the spec: urllib.parse.urljoin, which the program uses
to resolve a (possibly relative) hyperlink target against the base URL —
the library function is not part of the repository.  An href that already
carries a scheme is returned unchanged; an href starting with a slash is
resolved against the authority of the base; any other href replaces the
last segment of the base path (the base's query string is discarded
first), as urljoin does for the http URLs arising here. -/
def urljoinL (base href : List Char) : List Char :=
  if (breakScheme href).isSome then href
  else
    match breakScheme base with
    | none => href
    | some (scheme, rest) =>
      if href.head? = some '/' then
        scheme ++ ':' :: '/' :: '/' :: (rest.takeWhile (fun c => c ≠ '/')) ++ href
      else
        scheme ++ ':' :: '/' :: '/' :: dropLastSeg (rest.takeWhile (fun c => c ≠ '?')) ++ href

def urljoin (base href : String) : String := ⟨urljoinL base.data href.data⟩

/-- The URL shape validate_arguments requires of its first argument. -/
def requiredUrlStart : String := "https://www.volby.cz/pls/ps2017nss/ps3"

/-- validate_arguments: the argument list (sys.argv, program name
included) must have exactly three entries, the URL must start with the
territorial-unit path and the output name must end in .csv.  Returns the
verdict together with the diagnostics printed. -/
def validate_arguments (args : List String) : Bool × List String :=
  if args.length ≠ 3 then
    (false, ["❌ Zadejte přesně dva argumenty: <URL> <název_souboru.csv>"])
  else if !pyStartsWith (args.getD 1 "") requiredUrlStart then
    (false, ["❌ První argument musí být platný odkaz na stránku územního celku z volby.cz."])
  else if !pyEndsWith (args.getD 2 "") ".csv" then
    (false, ["❌ Druhý argument musí být název CSV souboru končící na .csv"])
  else (true, [])

/-- get_obec_links: for every tr of the unit page, when the row has a td
of class cislo and a td of class overflow_name and the cislo cell holds
an anchor with a non-empty href, append (href resolved against the base,
anchor text stripped, name-cell text stripped). -/
def get_obec_links (soup : Node) (base_url : String) : List (String × String × String) :=
  (findTrs soup).foldl (fun results row =>
    match findFirst (isTdClass "cislo") row, findFirst (isTdClass "overflow_name") row with
    | some cislo_td, some name_td =>
      match findFirst (isTag "a") cislo_td with
      | some a =>
        match a.attr "href" with
        | some href =>
          if href ≠ "" then
            results ++ [(urljoin base_url href, pyStrip a.innerText, pyStrip name_td.innerText)]
          else results
        | none => results
      | none => results
    | _, _ => results) []

/-- get_party_names: for every table of a municipality page and every tr
within it, when the row has a td of class overflow_name, append that
cell's stripped text. -/
def get_party_names (soup : Node) : List String :=
  (findTables soup).foldl (fun names table =>
    (findTrs table).foldl (fun names tr =>
      match findFirst (isTdClass "overflow_name") tr with
      | some name_td => names ++ [pyStrip name_td.innerText]
      | none => names) names) []

/-- The votes cell of a party row: the first td of class cislo in the row
one of whose headers tokens ends in sa2 (the second-column marker,
distinguishing t1sa2 / t2sa2 vote cells from t1sa1 / t2sa1 order-number
cells). -/
def voteTd (tr : Node) : Option Node :=
  (findAllNode (isTdClass "cislo") tr).find? (fun td =>
    td.headersTokens.any (fun h => pyEndsWith h "sa2"))

/-- The party-vote loop of parse_obec_data: for every table and every tr
within it that has an overflow_name cell, append the cleaned text of the
row's votes cell, or an empty string when the row has none. -/
def hlasyOf (soup : Node) : List String :=
  (findTables soup).foldl (fun hlasy table =>
    (findTrs table).foldl (fun hlasy tr =>
      if (findFirst (isTdClass "overflow_name") tr).isSome then
        match voteTd tr with
        | some td => hlasy ++ [pyClean td.innerText]
        | none => hlasy ++ [""]
      else hlasy) hlasy) []

/-- The cleaned text of the first td whose headers tokens contain h, when
such a cell exists (soup.find("td", headers=h).text, cleaned). -/
def scalarCell (soup : Node) (h : String) : Option String :=
  (findFirst (isTdHeaders h) soup).map (fun td => pyClean td.innerText)

/-- The body of parse_obec_data once the page is fetched: the three
mandatory scalar cells (sa2, sa3, sa6) in order, followed by the
per-party votes; none when a mandatory cell is missing (the
AttributeError of None.text). -/
def parse_obec_body (soup : Node) : Option (List String) :=
  match scalarCell soup "sa2" with
  | none => none
  | some volici =>
    match scalarCell soup "sa3" with
    | none => none
    | some obalky =>
      match scalarCell soup "sa6" with
      | none => none
      | some platne => some ([volici, obalky, platne] ++ hlasyOf soup)

/-- An exception escaping the run: an HTTP transport or status error
raised by requests.get / raise_for_status, or the AttributeError raised
when a mandatory scalar cell is absent. -/
inductive Err where
  | http (msg : String)
  | attributeError
deriving DecidableEq

/-- The network as an oracle: what each URL fetches and parses to.  An
error value models requests failing or raise_for_status firing. -/
def Fetch : Type := String → Except Err Node

/-- get_soup: fetch a URL and hand back the parsed document. -/
def get_soup (fetch : Fetch) (url : String) : Except Err Node := fetch url

/-- parse_obec_data: fetch one municipality page and extract its row of
values; any fetch error or missing scalar cell propagates. -/
def parse_obec_data (fetch : Fetch) (url : String) : Except Err (List String) :=
  match get_soup fetch url with
  | .error e => .error e
  | .ok soup =>
    match parse_obec_body soup with
    | some r => .ok r
    | none => .error .attributeError

/-- A character forcing a CSV field to be quoted in the default dialect:
the delimiter, the quote, or a line-terminator character. -/
def csvSpecialChar (c : Char) : Bool :=
  c = ',' || c = '"' || c = '\r' || c = '\n'

def csvNeedsQuote (f : List Char) : Bool := f.any csvSpecialChar

/-- Double every quote of a field (the escaping used inside quoted
fields). -/
def csvEscape : List Char → List Char
  | [] => []
  | c :: cs => (if c = '"' then ['"', '"'] else [c]) ++ csvEscape cs

/-- One serialized field: quoted and escaped exactly when it contains a
special character (QUOTE_MINIMAL). -/
def csvField (f : List Char) : List Char :=
  if csvNeedsQuote f then '"' :: (csvEscape f ++ ['"']) else f

def csvRowBody : List (List Char) → List Char
  | [] => []
  | [f] => csvField f
  | f :: rest => csvField f ++ ',' :: csvRowBody rest

/-- Modelled from the spec: one record of Python's csv.writer (default
dialect) — the library writer is not part of the repository.  Fields are
joined with commas and the record ends with CR LF; a lone empty field is
quoted so that the record is not mistaken for a blank line. -/
def csvRecord (r : List (List Char)) : List Char :=
  (if r = [[]] then ['"', '"'] else csvRowBody r) ++ ['\r', '\n']

def csvWriteL (rows : List (List (List Char))) : List Char :=
  (rows.map csvRecord).flatten

/-- save_to_csv: the full content written to the output file — the header
record followed by one record per data row. -/
def save_to_csv (header : List String) (data : List (List String)) : String :=
  ⟨csvWriteL ((header :: data).map (fun r => r.map String.data))⟩

/-- How one program run ends: returning after a validation diagnostic,
returning after the no-municipalities diagnostic, terminating on an
uncaught exception, or writing the output file.  Each constructor carries
the messages printed; only saved carries arguments of a save_to_csv
call — an output file exists exactly when the run ends in saved. -/
inductive RunOutcome where
  | invalidArgs (msgs : List String)
  | noObce (msgs : List String)
  | raised (msgs : List String) (e : Err)
  | saved (filename : String) (header : List String) (data : List (List String)) (msgs : List String)
deriving DecidableEq

def csvHeaderBase : List String := ["code", "location", "registered", "envelopes", "valid"]

/-- The municipality loop of main: enumerate obec_infos from 1, print the
progress line, parse each page and accumulate [code, name] ++ row;
a parse failure raises, ending the run; after the last municipality the
file is saved. -/
def obecLoop (fetch : Fetch) (total : Nat) (filename : String) (header : List String) :
    Nat → List (String × String × String) → List String → List (List String) → RunOutcome
  | _, [], msgs, data =>
      .saved filename header data
        (msgs ++ ["✅ Hotovo! Výsledky byly uloženy do souboru: " ++ filename])
  | i, info :: rest, msgs, data =>
      let msgs := msgs ++
        ["📥 " ++ toString i ++ "/" ++ toString total ++ " Zpracovávám: " ++ info.2.2]
      match parse_obec_data fetch info.1 with
      | .error e => .raised msgs e
      | .ok row =>
          obecLoop fetch total filename header (i + 1) rest msgs
            (data ++ [[info.2.1, info.2.2] ++ row])

/-- main: validate the arguments, fetch the unit page, collect the
municipality links (abort when none), take the party names from the first
municipality's page as the header tail, process every municipality and
save.  The fetch oracle stands for the network. -/
def mainRun (fetch : Fetch) (argv : List String) : RunOutcome :=
  match validate_arguments argv with
  | (false, msgs) => .invalidArgs msgs
  | (true, _) =>
    let url := argv.getD 1 ""
    let output_file := argv.getD 2 ""
    let msgs := ["🔄 Načítám hlavní stránku..."]
    match get_soup fetch url with
    | .error e => .raised msgs e
    | .ok main_soup =>
      let obec_infos := get_obec_links main_soup url
      if obec_infos.isEmpty then
        .noObce (msgs ++ ["❌ Žádné obce nebyly nalezeny."])
      else
        let msgs := msgs ++ ["📋 Načítám názvy stran z první obce..."]
        match get_soup fetch ((obec_infos.headD ("", "", "")).1) with
        | .error e => .raised msgs e
        | .ok first_soup =>
          obecLoop fetch obec_infos.length output_file
            (csvHeaderBase ++ get_party_names first_soup) 1 obec_infos msgs []

/-! ### Re-parsing delimited text

Modelled from the spec: a standard reader of the delimited format the
writer emits (fields separated by commas, records ended by CR LF, quoted
fields with doubled quotes, a blank line read back as an empty record) —
no such reader is part of the repository; it is the "re-parsed as
delimited text" side of the round-trip law. -/

/-- Consume a quoted field after its opening quote: a doubled quote is a
literal quote, a lone quote closes the field.  Returns the field content
and the input after the closing quote. -/
def parseQuoted : List Char → List Char × List Char
  | [] => ([], [])
  | c :: rest =>
    if c = '"' then
      if rest.head? = some '"' then
        let p := parseQuoted rest.tail
        ('"' :: p.1, p.2)
      else ([], rest)
    else
      let p := parseQuoted rest
      (c :: p.1, p.2)
termination_by l => l.length
decreasing_by
  · simp only [List.length_cons, List.length_tail]
    omega
  · simp only [List.length_cons]
    omega

/-- Consume an unquoted field: everything up to the delimiter or the
record end. -/
def parseUnquoted : List Char → List Char × List Char
  | [] => ([], [])
  | c :: rest =>
    if c = ',' || c = '\r' then ([], c :: rest)
    else
      let p := parseUnquoted rest
      (c :: p.1, p.2)

/-- Consume one field, quoted or not. -/
def parseField (l : List Char) : List Char × List Char :=
  if l.head? = some '"' then parseQuoted l.tail else parseUnquoted l

theorem parseQuoted_snd_length_le (l : List Char) :
    (parseQuoted l).2.length ≤ l.length := by
  match l with
  | [] => simp [parseQuoted]
  | c :: rest =>
    rw [parseQuoted]
    by_cases hc : c = '"'
    · by_cases hh : rest.head? = some '"'
      · have ih := parseQuoted_snd_length_le rest.tail
        have ht : rest.tail.length ≤ rest.length := by
          simp only [List.length_tail]
          omega
        simp [hc, hh]
        omega
      · simp [hc, hh]
    · have ih := parseQuoted_snd_length_le rest
      simp [hc]
      omega
termination_by l.length
decreasing_by
  all_goals simp only [List.length_cons, List.length_tail]
  all_goals omega

theorem parseUnquoted_snd_length_le (l : List Char) :
    (parseUnquoted l).2.length ≤ l.length := by
  induction l with
  | nil => simp [parseUnquoted]
  | cons c rest ih =>
    rw [parseUnquoted]
    by_cases hc : (c = ',' || c = '\r') = true
    · simp [hc]
    · simp only [Bool.not_eq_true] at hc
      simp only [hc, Bool.false_eq_true, if_false, List.length_cons]
      omega

theorem parseField_snd_length_le (l : List Char) :
    (parseField l).2.length ≤ l.length := by
  rw [parseField]
  by_cases hh : l.head? = some '"'
  · have h1 := parseQuoted_snd_length_le l.tail
    have h2 : l.tail.length ≤ l.length := by
      simp only [List.length_tail]
      omega
    simp [hh]
    omega
  · rw [if_neg hh]
    exact parseUnquoted_snd_length_le l

/-- Consume one record: fields separated by commas until the CR LF record
end (a missing terminator ends the record at the end of input). -/
def parseRecord (l : List Char) : List (List Char) × List Char :=
  if hcomma : (parseField l).2.head? = some ',' then
    ((parseField l).1 :: (parseRecord (parseField l).2.tail).1,
      (parseRecord (parseField l).2.tail).2)
  else if (parseField l).2.head? = some '\r' ∧ (parseField l).2.tail.head? = some '\n' then
    ([(parseField l).1], (parseField l).2.tail.tail)
  else ([(parseField l).1], (parseField l).2)
termination_by l.length
decreasing_by
  have hle := parseField_snd_length_le l
  have hne : (parseField l).2.length ≠ 0 := by
    intro h0
    rw [List.length_eq_zero] at h0
    simp [h0] at hcomma
  simp only [List.length_tail]
  omega

/-- Consume a whole file: a blank line is an empty record; parsing stops
if a malformed record consumes nothing. -/
def parseRows (l : List Char) : List (List (List Char)) :=
  if l.isEmpty then []
  else if hcrlf : l.head? = some '\r' ∧ l.tail.head? = some '\n' then
    [] :: parseRows l.tail.tail
  else
    let p := parseRecord l
    p.1 :: (if h : p.2.length < l.length then parseRows p.2 else [])
termination_by l.length
decreasing_by
  · have hne : l.length ≠ 0 := by
      intro h0
      rw [List.length_eq_zero] at h0
      simp [h0] at hcrlf
    simp only [List.length_tail]
    omega
  · exact h

/-- Re-parse a delimited file into its records of fields. -/
def csvParse (s : String) : List (List String) :=
  (parseRows s.data).map (fun r => r.map (fun f => ⟨f⟩))

/-! ### The round trip: parsing what the writer wrote -/

theorem parseQuoted_escape (f rest : List Char) (hrest : rest.head? ≠ some '"') :
    parseQuoted (csvEscape f ++ '"' :: rest) = (f, rest) := by
  induction f with
  | nil =>
    rw [csvEscape, List.nil_append, parseQuoted]
    simp [hrest]
  | cons a f ih =>
    by_cases ha : a = '"'
    · subst ha
      have he : csvEscape ('"' :: f) = '"' :: '"' :: csvEscape f := by
        simp [csvEscape]
      rw [he, List.cons_append, List.cons_append, parseQuoted]
      simp [ih]
    · have he : csvEscape (a :: f) = a :: csvEscape f := by
        simp [csvEscape, ha]
      rw [he, List.cons_append, parseQuoted]
      simp [ha, ih]

theorem parseUnquoted_clean (f rest : List Char)
    (hf : ∀ c ∈ f, csvSpecialChar c = false)
    (hrest : rest.head? = some ',' ∨ rest.head? = some '\r') :
    parseUnquoted (f ++ rest) = (f, rest) := by
  induction f with
  | nil =>
    rw [List.nil_append]
    cases rest with
    | nil => simp at hrest
    | cons c rest2 =>
      rw [parseUnquoted]
      rcases hrest with h | h <;> simp only [List.head?_cons, Option.some.injEq] at h <;>
        simp [h]
  | cons a f ih =>
    have ha := hf a (by simp)
    have ha1 : a ≠ ',' := by
      intro h
      rw [h] at ha
      simp [csvSpecialChar] at ha
    have ha2 : a ≠ '\r' := by
      intro h
      rw [h] at ha
      simp [csvSpecialChar] at ha
    have ihh := ih (fun c hc => hf c (List.mem_cons_of_mem _ hc))
    rw [List.cons_append, parseUnquoted]
    simp [ha1, ha2, ihh]

theorem parseField_csvField (f rest : List Char)
    (hrest : rest.head? = some ',' ∨ rest.head? = some '\r') :
    parseField (csvField f ++ rest) = (f, rest) := by
  have hrq : rest.head? ≠ some '"' := by
    rcases hrest with h | h <;> simp [h]
  rw [csvField]
  by_cases hq : csvNeedsQuote f = true
  · rw [if_pos hq, List.cons_append, parseField]
    simp only [List.head?_cons, List.tail_cons, List.append_assoc, List.cons_append,
      List.nil_append, if_true]
    exact parseQuoted_escape f rest hrq
  · have hf : ∀ c ∈ f, csvSpecialChar c = false := by
      rw [csvNeedsQuote] at hq
      simpa using hq
    rw [if_neg hq, parseField]
    have hhd : (f ++ rest).head? ≠ some '"' := by
      cases f with
      | nil => simpa using hrq
      | cons a f2 =>
        have ha := hf a (by simp)
        simp only [ne_eq, List.cons_append, List.head?_cons, Option.some.injEq]
        intro h
        rw [h] at ha
        simp [csvSpecialChar] at ha
    rw [if_neg hhd]
    exact parseUnquoted_clean f rest hf hrest

theorem parseRecord_rowBody (r : List (List Char)) (rest : List Char) (hr : r ≠ []) :
    parseRecord (csvRowBody r ++ '\r' :: '\n' :: rest) = (r, rest) := by
  induction r with
  | nil => exact absurd rfl hr
  | cons f more ih =>
    cases more with
    | nil =>
      have hfld := parseField_csvField f ('\r' :: '\n' :: rest) (Or.inr rfl)
      rw [show csvRowBody [f] = csvField f from rfl, parseRecord]
      simp [hfld]
    | cons g more2 =>
      have hfld := parseField_csvField f
        (',' :: (csvRowBody (g :: more2) ++ '\r' :: '\n' :: rest)) (Or.inl rfl)
      have hbody : csvRowBody (f :: g :: more2) = csvField f ++ ',' :: csvRowBody (g :: more2) := by
        rw [csvRowBody]
        exact fun h => absurd h (List.cons_ne_nil g more2)
      rw [hbody, parseRecord]
      simp only [List.append_assoc, List.cons_append] at hfld ⊢
      simp only [hfld, List.head?_cons, List.tail_cons, Option.some.injEq]
      simp only [dite_true]
      simp [ih (List.cons_ne_nil g more2)]

/-- A serialized field is empty only for the empty field. -/
theorem csvField_eq_nil (f : List Char) (h : csvField f = []) : f = [] := by
  rw [csvField] at h
  by_cases hq : csvNeedsQuote f = true
  · rw [if_pos hq] at h
    simp at h
  · rwa [if_neg hq] at h

/-- A serialized field is empty or starts with a character other than
CR. -/
theorem csvField_head (f : List Char) :
    csvField f = [] ∨ ∃ c t, csvField f = c :: t ∧ c ≠ '\r' := by
  rw [csvField]
  by_cases hq : csvNeedsQuote f = true
  · rw [if_pos hq]
    exact Or.inr ⟨'"', csvEscape f ++ ['"'], rfl, by decide⟩
  · rw [if_neg hq]
    cases f with
    | nil => exact Or.inl rfl
    | cons a t =>
      have hq2 : ∀ c ∈ a :: t, csvSpecialChar c = false := by
        rw [csvNeedsQuote] at hq
        simpa using hq
      have ha : csvSpecialChar a = false := hq2 a (by simp)
      refine Or.inr ⟨a, t, rfl, ?_⟩
      intro h
      rw [h] at ha
      simp [csvSpecialChar] at ha

/-- The body of a record that is neither the empty record nor the lone
empty field starts with a character other than CR. -/
theorem csvRowBody_head (r : List (List Char)) (hr : r ≠ []) (hr2 : r ≠ [[]]) :
    ∃ c t, csvRowBody r = c :: t ∧ c ≠ '\r' := by
  cases r with
  | nil => exact absurd rfl hr
  | cons f more =>
    cases more with
    | nil =>
      have hf : f ≠ [] := by
        intro h
        exact hr2 (by rw [h])
      rcases csvField_head f with h | ⟨c, t, hc, hcr⟩
      · exact absurd (csvField_eq_nil f h) hf
      · exact ⟨c, t, by rw [show csvRowBody [f] = csvField f from rfl, hc], hcr⟩
    | cons g more2 =>
      have hbody : csvRowBody (f :: g :: more2) = csvField f ++ ',' :: csvRowBody (g :: more2) := by
        rw [csvRowBody]
        exact fun h => absurd h (List.cons_ne_nil g more2)
      rcases csvField_head f with h | ⟨c, t, hc, hcr⟩
      · exact ⟨',', csvRowBody (g :: more2), by rw [hbody, h, List.nil_append], by decide⟩
      · exact ⟨c, t ++ ',' :: csvRowBody (g :: more2), by rw [hbody, hc, List.cons_append], hcr⟩

theorem csvWriteL_cons (r : List (List Char)) (rows : List (List (List Char))) :
    csvWriteL (r :: rows) = csvRecord r ++ csvWriteL rows := by
  simp [csvWriteL]

/-- Parsing inverts writing, record by record. -/
theorem parseRows_csvWriteL (rows : List (List (List Char))) :
    parseRows (csvWriteL rows) = rows := by
  induction rows with
  | nil => rw [show csvWriteL [] = [] from rfl, parseRows]; simp
  | cons r rows ih =>
    rw [csvWriteL_cons]
    by_cases h0 : r = []
    · subst h0
      have hrec0 : csvRecord [] = ['\r', '\n'] := by
        simp [csvRecord, csvRowBody]
      rw [hrec0, List.cons_append, List.cons_append, parseRows]
      simp [ih]
    · by_cases h1 : r = [[]]
      · subst h1
        have hrec1 : csvRecord [[]] = ['"', '"', '\r', '\n'] := by
          simp [csvRecord]
        rw [hrec1]
        simp only [List.cons_append, List.nil_append]
        have hpf : parseField ('"' :: '"' :: '\r' :: '\n' :: csvWriteL rows) =
            ([], '\r' :: '\n' :: csvWriteL rows) := by
          have hd1 : ¬ (('\r' : Char) = '"') := by decide
          rw [parseField]
          simp only [List.head?_cons, List.tail_cons, Option.some.injEq, if_true]
          rw [parseQuoted]
          simp [hd1]
        have hpr : parseRecord ('"' :: '"' :: '\r' :: '\n' :: csvWriteL rows) =
            ([[]], csvWriteL rows) := by
          have hc1 : ¬ (('\r' : Char) = ',') := by decide
          rw [parseRecord]
          simp [hpf, hc1]
        have hg : ¬ (('"' : Char) = '\r') := by decide
        rw [parseRows]
        rw [if_neg (by simp), dif_neg (by simp [hg])]
        simp only [hpr]
        rw [dif_pos (by simp only [List.length_cons]; omega)]
        simp [ih]
      · rcases csvRowBody_head r h0 h1 with ⟨c, t, hb, hcr⟩
        have hrecr : csvRecord r = csvRowBody r ++ ['\r', '\n'] := by
          simp [csvRecord, h1]
        rw [hrecr]
        have hrec := parseRecord_rowBody r (csvWriteL rows) h0
        rw [List.append_assoc]
        simp only [List.cons_append, List.nil_append]
        rw [hb, List.cons_append, parseRows]
        simp only [List.isEmpty_cons, Bool.false_eq_true, List.head?_cons, Option.some.injEq]
        rw [if_neg (by simp), dif_neg (by intro hand; exact hcr hand.1)]
        rw [hb, List.cons_append] at hrec
        simp only [hrec]
        have hlen : (csvWriteL rows).length < (c :: (t ++ '\r' :: '\n' :: csvWriteL rows)).length := by
          simp only [List.length_cons, List.length_append]
          omega
        rw [dif_pos hlen, ih]

/-! ### Characterizing the extraction loops -/

/-- An append-accumulating foldl is the flattened image of the list. -/
theorem foldl_append_init {α β : Type} (g : α → List β) (l : List α) (init : List β) :
    l.foldl (fun acc x => acc ++ g x) init = init ++ (l.map g).flatten := by
  induction l generalizing init with
  | nil => simp
  | cons x l ih => simp [ih, List.append_assoc]

/-- Flattening singleton-or-empty images is a filtered map. -/
theorem flatten_ite_singleton {α β : Type} (p : α → Bool) (f : α → β) (l : List α) :
    (l.map (fun x => if p x then [f x] else [])).flatten = (l.filter p).map f := by
  induction l with
  | nil => simp
  | cons x l ih =>
    by_cases hx : p x = true <;> simp [hx, ih]

/-- The name extracted from one row by get_party_names: the stripped text
of the row's first overflow_name cell, when the row has one. -/
def rowPartyName (tr : Node) : Option String :=
  (findFirst (isTdClass "overflow_name") tr).map (fun td => pyStrip td.innerText)

/-- Whether a row is a party row: it has an overflow_name cell. -/
def isPartyRow (tr : Node) : Bool :=
  (findFirst (isTdClass "overflow_name") tr).isSome

/-- The party rows of a page as the spec describes them: the rows having
an overflow_name cell, of every table, in document order. -/
def partyRows (soup : Node) : List Node :=
  ((findTables soup).map (fun t => (findTrs t).filter isPartyRow)).flatten

/-- The vote count recorded for one party row: the cleaned text of its
votes cell, or the empty-string placeholder when the row has none. -/
def voteValue (tr : Node) : String :=
  match voteTd tr with
  | some td => pyClean td.innerText
  | none => ""

/-- Flattening option images is a filterMap. -/
theorem flatten_toList {α β : Type} (f : α → Option β) (l : List α) :
    (l.map (fun x => (f x).toList)).flatten = l.filterMap f := by
  induction l with
  | nil => simp
  | cons x l ih => cases hx : f x <;> simp [hx, ih]

theorem get_party_names_eq (soup : Node) :
    get_party_names soup =
      ((findTables soup).map (fun t => (findTrs t).filterMap rowPartyName)).flatten := by
  have hfun : (fun (names : List String) tr =>
      match findFirst (isTdClass "overflow_name") tr with
      | some name_td => names ++ [pyStrip name_td.innerText]
      | none => names)
    = fun (names : List String) tr => names ++ (rowPartyName tr).toList := by
    funext names tr
    rw [rowPartyName]
    cases findFirst (isTdClass "overflow_name") tr <;> simp
  have hinner : ∀ (t : Node) (init : List String),
      (findTrs t).foldl (fun names tr =>
        match findFirst (isTdClass "overflow_name") tr with
        | some name_td => names ++ [pyStrip name_td.innerText]
        | none => names) init
      = init ++ (findTrs t).filterMap rowPartyName := by
    intro t init
    rw [hfun, foldl_append_init, flatten_toList]
  have hout : (fun (names : List String) table =>
      (findTrs table).foldl (fun names tr =>
        match findFirst (isTdClass "overflow_name") tr with
        | some name_td => names ++ [pyStrip name_td.innerText]
        | none => names) names)
    = fun (names : List String) table => names ++ (findTrs table).filterMap rowPartyName := by
    funext names table
    exact hinner table names
  rw [get_party_names, hout, foldl_append_init, List.nil_append]

theorem hlasyOf_eq (soup : Node) : hlasyOf soup = (partyRows soup).map voteValue := by
  have hfun : (fun (hlasy : List String) tr =>
      if (findFirst (isTdClass "overflow_name") tr).isSome then
        match voteTd tr with
        | some td => hlasy ++ [pyClean td.innerText]
        | none => hlasy ++ [""]
      else hlasy)
    = fun (hlasy : List String) tr =>
        hlasy ++ (if isPartyRow tr then [voteValue tr] else []) := by
    funext hlasy tr
    rw [isPartyRow, voteValue]
    by_cases h : (findFirst (isTdClass "overflow_name") tr).isSome
    · cases hv : voteTd tr <;> simp [h, hv]
    · simp [h]
  have hinner : ∀ (t : Node) (init : List String),
      (findTrs t).foldl (fun hlasy tr =>
        if (findFirst (isTdClass "overflow_name") tr).isSome then
          match voteTd tr with
          | some td => hlasy ++ [pyClean td.innerText]
          | none => hlasy ++ [""]
        else hlasy) init
      = init ++ ((findTrs t).filter isPartyRow).map voteValue := by
    intro t init
    rw [hfun, foldl_append_init, flatten_ite_singleton]
  have hout : (fun (hlasy : List String) table =>
      (findTrs table).foldl (fun hlasy tr =>
        if (findFirst (isTdClass "overflow_name") tr).isSome then
          match voteTd tr with
          | some td => hlasy ++ [pyClean td.innerText]
          | none => hlasy ++ [""]
        else hlasy) hlasy)
    = fun (hlasy : List String) table =>
        hlasy ++ ((findTrs table).filter isPartyRow).map voteValue := by
    funext hlasy table
    exact hinner table hlasy
  rw [hlasyOf, hout, foldl_append_init, List.nil_append, partyRows, List.map_flatten,
    List.map_map]
  rfl

/-- The two passes over a page see exactly the same party rows: the party
loop of parse_obec_data emits one value per party row. -/
theorem hlasyOf_length (soup : Node) :
    (hlasyOf soup).length = (partyRows soup).length := by
  rw [hlasyOf_eq, List.length_map]

/-- A row contributes to the name list exactly when it is a party row. -/
theorem filterMap_rowPartyName_length (l : List Node) :
    (l.filterMap rowPartyName).length = (l.filter isPartyRow).length := by
  induction l with
  | nil => rfl
  | cons tr trs ih =>
    rw [List.filterMap_cons, List.filter_cons]
    cases h : findFirst (isTdClass "overflow_name") tr with
    | none =>
      have h1 : rowPartyName tr = none := by
        rw [rowPartyName, h]
        rfl
      have h2 : isPartyRow tr = false := by
        rw [isPartyRow, h]
        rfl
      rw [h1, h2]
      simpa using ih
    | some td =>
      have h1 : rowPartyName tr = some (pyStrip td.innerText) := by
        rw [rowPartyName, h]
        rfl
      have h2 : isPartyRow tr = true := by
        rw [isPartyRow, h]
        rfl
      rw [h1, h2]
      simp [ih]

/-- get_party_names emits one name per party row as well. -/
theorem get_party_names_length (soup : Node) :
    (get_party_names soup).length = (partyRows soup).length := by
  rw [get_party_names_eq, partyRows]
  rw [List.length_flatten, List.length_flatten, List.map_map, List.map_map]
  congr 1
  apply List.map_congr_left
  intro t _
  simp only [Function.comp_apply]
  exact filterMap_rowPartyName_length (findTrs t)

/-! ### Running main against a fetch oracle -/

theorem parse_obec_body_some (soup : Node) (r : List String)
    (h : parse_obec_body soup = some r) :
    ∃ v o p, scalarCell soup "sa2" = some v ∧ scalarCell soup "sa3" = some o ∧
      scalarCell soup "sa6" = some p ∧ r = [v, o, p] ++ hlasyOf soup := by
  rw [parse_obec_body] at h
  cases hv : scalarCell soup "sa2" with
  | none => rw [hv] at h; exact Option.noConfusion h
  | some v =>
    rw [hv] at h
    cases ho : scalarCell soup "sa3" with
    | none => rw [ho] at h; exact Option.noConfusion h
    | some o =>
      rw [ho] at h
      cases hp : scalarCell soup "sa6" with
      | none => rw [hp] at h; exact Option.noConfusion h
      | some p =>
        rw [hp] at h
        cases h
        exact ⟨v, o, p, rfl, rfl, rfl, rfl⟩

theorem parse_obec_data_ok (fetch : Fetch) (url : String) (r : List String)
    (h : parse_obec_data fetch url = .ok r) :
    ∃ soup, fetch url = .ok soup ∧ parse_obec_body soup = some r := by
  rw [parse_obec_data, get_soup] at h
  cases hf : fetch url with
  | error e => rw [hf] at h; exact Except.noConfusion h
  | ok soup =>
    rw [hf] at h
    have h2 : (match parse_obec_body soup with
        | some r => (Except.ok r : Except Err (List String))
        | none => Except.error Err.attributeError) = Except.ok r := h
    cases hb : parse_obec_body soup with
    | none => rw [hb] at h2; exact Except.noConfusion h2
    | some r2 =>
      rw [hb] at h2
      cases h2
      exact ⟨soup, rfl, hb⟩

/-- The full output row accumulated for one municipality: code and name
followed by the parsed values (meaningful when the parse succeeded). -/
def obecRow (fetch : Fetch) (info : String × String × String) : List String :=
  match parse_obec_data fetch info.1 with
  | .ok r => [info.2.1, info.2.2] ++ r
  | .error _ => []

theorem obecLoop_saved_of_ok (fetch : Fetch) (total : Nat) (filename : String)
    (header : List String) (infos : List (String × String × String))
    (hall : ∀ x ∈ infos, ∃ r, parse_obec_data fetch x.1 = Except.ok r) :
    ∀ (i : Nat) (msgs : List String) (acc : List (List String)),
      ∃ msgs2, obecLoop fetch total filename header i infos msgs acc =
        .saved filename header (acc ++ infos.map (obecRow fetch)) msgs2 := by
  induction infos with
  | nil =>
    intro i msgs acc
    refine ⟨msgs ++ ["✅ Hotovo! Výsledky byly uloženy do souboru: " ++ filename], ?_⟩
    rw [obecLoop]
    simp
  | cons info rest ih =>
    intro i msgs acc
    obtain ⟨r, hr⟩ := hall info (by simp)
    obtain ⟨msgs2, hm⟩ := ih (fun x hx => hall x (by simp [hx])) (i + 1)
      (msgs ++ ["📥 " ++ toString i ++ "/" ++ toString total ++ " Zpracovávám: " ++ info.2.2])
      (acc ++ [[info.2.1, info.2.2] ++ r])
    refine ⟨msgs2, ?_⟩
    have hstep : obecLoop fetch total filename header i (info :: rest) msgs acc =
        obecLoop fetch total filename header (i + 1) rest
          (msgs ++ ["📥 " ++ toString i ++ "/" ++ toString total ++ " Zpracovávám: " ++ info.2.2])
          (acc ++ [[info.2.1, info.2.2] ++ r]) := by
      rw [obecLoop, hr]
    rw [hstep, hm]
    have hrow : obecRow fetch info = [info.2.1, info.2.2] ++ r := by
      rw [obecRow, hr]
    rw [List.map_cons, hrow]
    simp [List.append_assoc]

theorem obecLoop_raised_of_err (fetch : Fetch) (total : Nat) (filename : String)
    (header : List String) (infos : List (String × String × String))
    (hex : ∃ x ∈ infos, ∃ e, parse_obec_data fetch x.1 = Except.error e) :
    ∀ (i : Nat) (msgs : List String) (acc : List (List String)),
      ∃ msgs2 e, obecLoop fetch total filename header i infos msgs acc = .raised msgs2 e := by
  induction infos with
  | nil => simp at hex
  | cons info rest ih =>
    intro i msgs acc
    cases hp : parse_obec_data fetch info.1 with
    | error e =>
      refine ⟨msgs ++ ["📥 " ++ toString i ++ "/" ++ toString total ++ " Zpracovávám: " ++ info.2.2],
        e, ?_⟩
      rw [obecLoop, hp]
    | ok r =>
      have hex2 : ∃ x ∈ rest, ∃ e, parse_obec_data fetch x.1 = Except.error e := by
        obtain ⟨x, hx, e, he⟩ := hex
        rcases List.mem_cons.mp hx with rfl | hx2
        · rw [hp] at he
          exact Except.noConfusion he
        · exact ⟨x, hx2, e, he⟩
      obtain ⟨m2, e, hm⟩ := ih hex2 (i + 1)
        (msgs ++ ["📥 " ++ toString i ++ "/" ++ toString total ++ " Zpracovávám: " ++ info.2.2])
        (acc ++ [[info.2.1, info.2.2] ++ r])
      refine ⟨m2, e, ?_⟩
      have hstep : obecLoop fetch total filename header i (info :: rest) msgs acc =
          obecLoop fetch total filename header (i + 1) rest
            (msgs ++ ["📥 " ++ toString i ++ "/" ++ toString total ++ " Zpracovávám: " ++ info.2.2])
            (acc ++ [[info.2.1, info.2.2] ++ r]) := by
        rw [obecLoop, hp]
      rw [hstep]
      exact hm

theorem obecLoop_saved_inv (fetch : Fetch) (total : Nat) (filename : String)
    (header : List String) (infos : List (String × String × String)) :
    ∀ (i : Nat) (msgs : List String) (acc : List (List String))
      (f : String) (h : List String) (d : List (List String)) (m : List String),
      obecLoop fetch total filename header i infos msgs acc = .saved f h d m →
      f = filename ∧ h = header ∧ d = acc ++ infos.map (obecRow fetch) ∧
        ∀ x ∈ infos, ∃ r, parse_obec_data fetch x.1 = Except.ok r := by
  induction infos with
  | nil =>
    intro i msgs acc f h d m hsaved
    rw [obecLoop] at hsaved
    cases hsaved
    exact ⟨rfl, rfl, by simp, by simp⟩
  | cons info rest ih =>
    intro i msgs acc f h d m hsaved
    rw [obecLoop] at hsaved
    cases hp : parse_obec_data fetch info.1 with
    | error e =>
      rw [hp] at hsaved
      exact RunOutcome.noConfusion hsaved
    | ok r =>
      rw [hp] at hsaved
      obtain ⟨h1, h2, h3, h4⟩ := ih _ _ _ _ _ _ _ hsaved
      refine ⟨h1, h2, ?_, ?_⟩
      · rw [h3, List.map_cons]
        have hrow : obecRow fetch info = [info.2.1, info.2.2] ++ r := by
          rw [obecRow, hp]
        rw [hrow]
        simp [List.append_assoc]
      · intro x hx
        rcases List.mem_cons.mp hx with rfl | hx2
        · exact ⟨r, hp⟩
        · exact h4 x hx2

/-- The validator accepts exactly the well-shaped argument lists. -/
theorem validate_arguments_true_iff (args : List String) :
    (validate_arguments args).1 = true ↔
      ∃ p u o, args = [p, u, o] ∧ pyStartsWith u requiredUrlStart = true ∧
        pyEndsWith o ".csv" = true := by
  rw [validate_arguments]
  constructor
  · intro h
    by_cases hlen : args.length = 3
    · obtain ⟨p, u, o, rfl⟩ := List.length_eq_three.mp hlen
      simp only [List.getD] at h
      by_cases hu : pyStartsWith u requiredUrlStart = true
      · by_cases ho : pyEndsWith o ".csv" = true
        · exact ⟨p, u, o, rfl, hu, ho⟩
        · simp [hlen, hu, ho] at h
      · simp [hlen, hu] at h
    · simp [hlen] at h
  · rintro ⟨p, u, o, rfl, hu, ho⟩
    simp [hu, ho]

theorem validate_arguments_ok (p u o : String)
    (hu : pyStartsWith u requiredUrlStart = true)
    (ho : pyEndsWith o ".csv" = true) :
    validate_arguments [p, u, o] = (true, []) := by
  rw [validate_arguments]
  simp [hu, ho]

/-- A run that reaches the saving step: every fetch succeeded, the header
came from the first municipality's page and the data rows are the
municipalities' rows in encounter order. -/
theorem mainRun_ok (fetch : Fetch) (p u o : String) (main_soup first_soup : Node)
    (hu : pyStartsWith u requiredUrlStart = true)
    (ho : pyEndsWith o ".csv" = true)
    (hmain : fetch u = Except.ok main_soup)
    (hne : get_obec_links main_soup u ≠ [])
    (hfirst : fetch ((get_obec_links main_soup u).headD ("", "", "")).1 = Except.ok first_soup)
    (hall : ∀ x ∈ get_obec_links main_soup u, ∃ r, parse_obec_data fetch x.1 = Except.ok r) :
    ∃ msgs, mainRun fetch [p, u, o] = .saved o
      (csvHeaderBase ++ get_party_names first_soup)
      ((get_obec_links main_soup u).map (obecRow fetch)) msgs := by
  obtain ⟨info, rest, hinfos⟩ : ∃ a b, get_obec_links main_soup u = a :: b := by
    cases hgl : get_obec_links main_soup u with
    | nil => exact absurd hgl hne
    | cons a b => exact ⟨a, b, rfl⟩
  have hfirst2 : fetch info.1 = Except.ok first_soup := by
    rw [hinfos] at hfirst
    simpa using hfirst
  obtain ⟨msgs2, hloop⟩ := obecLoop_saved_of_ok fetch (info :: rest).length o
    (csvHeaderBase ++ get_party_names first_soup) (info :: rest)
    (by rw [← hinfos]; exact hall) 1
    ["🔄 Načítám hlavní stránku...", "📋 Načítám názvy stran z první obce..."] []
  refine ⟨msgs2, ?_⟩
  rw [mainRun, validate_arguments_ok p u o hu ho]
  simp only [List.getD_cons_succ, List.getD_cons_zero, get_soup, hmain, hinfos,
    List.isEmpty_cons, Bool.false_eq_true, if_false, List.headD_cons, hfirst2,
    List.cons_append, List.nil_append]
  simp only [List.nil_append] at hloop
  exact hloop

/-- A run on a unit page with no qualifying municipality rows: the
diagnostic is printed and the run returns normally; the outcome depends
on no URL other than the unit page's. -/
theorem mainRun_noObce (fetch : Fetch) (p u o : String) (main_soup : Node)
    (hu : pyStartsWith u requiredUrlStart = true)
    (ho : pyEndsWith o ".csv" = true)
    (hmain : fetch u = Except.ok main_soup)
    (hempty : get_obec_links main_soup u = []) :
    mainRun fetch [p, u, o] =
      .noObce ["🔄 Načítám hlavní stránku...", "❌ Žádné obce nebyly nalezeny."] := by
  rw [mainRun, validate_arguments_ok p u o hu ho]
  simp only [List.getD_cons_succ, List.getD_cons_zero, get_soup, hmain, hempty,
    List.isEmpty_nil, if_true, List.cons_append, List.nil_append]

/-- A run in which some needed fetch fails or some municipality page
lacks a mandatory cell: the run ends in an uncaught exception and never
reaches save_to_csv. -/
theorem mainRun_raised (fetch : Fetch) (p u o : String)
    (hu : pyStartsWith u requiredUrlStart = true)
    (ho : pyEndsWith o ".csv" = true)
    (hfail :
      (∃ e, fetch u = Except.error e) ∨
      (∃ main_soup, fetch u = Except.ok main_soup ∧
        get_obec_links main_soup u ≠ [] ∧
        ∃ x ∈ get_obec_links main_soup u, ∃ e,
          parse_obec_data fetch x.1 = Except.error e)) :
    ∃ msgs e, mainRun fetch [p, u, o] = .raised msgs e := by
  rcases hfail with ⟨e, he⟩ | ⟨main_soup, hmain, hne, hex⟩
  · refine ⟨["🔄 Načítám hlavní stránku..."], e, ?_⟩
    rw [mainRun, validate_arguments_ok p u o hu ho]
    simp only [List.getD_cons_succ, List.getD_cons_zero, get_soup, he]
  · obtain ⟨info, rest, hinfos⟩ : ∃ a b, get_obec_links main_soup u = a :: b := by
      cases hgl : get_obec_links main_soup u with
      | nil => exact absurd hgl hne
      | cons a b => exact ⟨a, b, rfl⟩
    cases hf2 : fetch info.1 with
    | error e2 =>
      refine ⟨["🔄 Načítám hlavní stránku...", "📋 Načítám názvy stran z první obce..."], e2, ?_⟩
      rw [mainRun, validate_arguments_ok p u o hu ho]
      simp only [List.getD_cons_succ, List.getD_cons_zero, get_soup, hmain, hinfos,
        List.isEmpty_cons, Bool.false_eq_true, if_false, List.headD_cons, hf2,
        List.cons_append, List.nil_append]
    | ok first_soup =>
      obtain ⟨msgs2, e2, hloop⟩ := obecLoop_raised_of_err fetch (info :: rest).length o
        (csvHeaderBase ++ get_party_names first_soup) (info :: rest)
        (by rw [← hinfos]; exact hex) 1
        ["🔄 Načítám hlavní stránku...", "📋 Načítám názvy stran z první obce..."] []
      refine ⟨msgs2, e2, ?_⟩
      rw [mainRun, validate_arguments_ok p u o hu ho]
      simp only [List.getD_cons_succ, List.getD_cons_zero, get_soup, hmain, hinfos,
        List.isEmpty_cons, Bool.false_eq_true, if_false, List.headD_cons, hf2,
        List.cons_append, List.nil_append]
      exact hloop

/-- Inversion of a saved run: what must have happened for the file to be
written. -/
theorem mainRun_saved_inv (fetch : Fetch) (argv : List String) (f : String)
    (h : List String) (d : List (List String)) (m : List String)
    (hsaved : mainRun fetch argv = .saved f h d m) :
    ∃ main_soup first_soup,
      fetch (argv.getD 1 "") = Except.ok main_soup ∧
      get_obec_links main_soup (argv.getD 1 "") ≠ [] ∧
      fetch ((get_obec_links main_soup (argv.getD 1 "")).headD ("", "", "")).1 =
        Except.ok first_soup ∧
      f = argv.getD 2 "" ∧
      h = csvHeaderBase ++ get_party_names first_soup ∧
      d = (get_obec_links main_soup (argv.getD 1 "")).map (obecRow fetch) ∧
      ∀ x ∈ get_obec_links main_soup (argv.getD 1 ""), ∃ r,
        parse_obec_data fetch x.1 = Except.ok r := by
  rw [mainRun] at hsaved
  rcases hval : validate_arguments argv with ⟨b, vmsgs⟩
  rw [hval] at hsaved
  cases b with
  | false => exact RunOutcome.noConfusion hsaved
  | true =>
    simp only [get_soup] at hsaved
    cases hfm : fetch (argv.getD 1 "") with
    | error e =>
      simp only [hfm] at hsaved
      exact RunOutcome.noConfusion hsaved
    | ok main_soup =>
      simp only [hfm] at hsaved
      cases hgl : get_obec_links main_soup (argv.getD 1 "") with
      | nil =>
        simp only [hgl, List.isEmpty_nil, if_true] at hsaved
        exact RunOutcome.noConfusion hsaved
      | cons info rest =>
        simp only [hgl, List.isEmpty_cons, Bool.false_eq_true, if_false,
          List.headD_cons] at hsaved
        cases hf2 : fetch info.1 with
        | error e2 =>
          simp only [hf2] at hsaved
          exact RunOutcome.noConfusion hsaved
        | ok first_soup =>
          simp only [hf2] at hsaved
          obtain ⟨h1, h2, h3, h4⟩ := obecLoop_saved_inv fetch (info :: rest).length
            (argv.getD 2 "") (csvHeaderBase ++ get_party_names first_soup)
            (info :: rest) _ _ _ _ _ _ _ hsaved
          refine ⟨main_soup, first_soup, rfl, by rw [hgl]; exact List.cons_ne_nil info rest,
            ?_, h1, h2, ?_, ?_⟩
          · rw [hgl, List.headD_cons]
            exact hf2
          · rw [hgl, h3, List.nil_append]
          · rw [hgl]
            exact h4

/-! ### Claim-side descriptions and concrete pages -/

/-- Every overflow-name cell of every row of every table, in document
order — the reading of the spec in which a row with several overflow-name
cells contributes them all. -/
def allOverflowNames (soup : Node) : List String :=
  ((findTables soup).map (fun t =>
    ((findTrs t).map (fun tr =>
      (findAllNode (isTdClass "overflow_name") tr).map (fun td => pyStrip td.innerText))).flatten)).flatten

/-- The qualification the claim states for a municipality row: a cislo
cell, an overflow-name cell, and an anchor inside the cislo cell carrying
an href attribute (of any value). -/
def specRowQualifies (row : Node) : Bool :=
  match findFirst (isTdClass "cislo") row, findFirst (isTdClass "overflow_name") row with
  | some cislo_td, some _ =>
    match findFirst (isTag "a") cislo_td with
    | some a => (a.attr "href").isSome
    | none => false
  | _, _ => false

/-- The qualification the code applies: as above, but the href must also
be non-empty (an empty href is falsy in the source's truth test). -/
def rowQualifies (row : Node) : Bool :=
  match findFirst (isTdClass "cislo") row, findFirst (isTdClass "overflow_name") row with
  | some cislo_td, some _ =>
    match findFirst (isTag "a") cislo_td with
    | some a =>
      match a.attr "href" with
      | some href => href != ""
      | none => false
    | none => false
  | _, _ => false

/-- What one row contributes to get_obec_links: its (resolved URL, code,
name) triple when it qualifies. -/
def rowLink (base_url : String) (row : Node) : Option (String × String × String) :=
  match findFirst (isTdClass "cislo") row, findFirst (isTdClass "overflow_name") row with
  | some cislo_td, some name_td =>
    match findFirst (isTag "a") cislo_td with
    | some a =>
      match a.attr "href" with
      | some href =>
        if href ≠ "" then
          some (urljoin base_url href, pyStrip a.innerText, pyStrip name_td.innerText)
        else none
      | none => none
    | none => none
  | _, _ => none

/-- A td cell of the portal's summary table, tagged by its headers
attribute. -/
def tdScalar (h : String) (v : String) : Node :=
  .elem "td" [("headers", h)] [.text v]

/-- A numeric cell of a party table, tagged cislo with its headers
tokens. -/
def tdCislo (hdrs : String) (v : String) : Node :=
  .elem "td" [("class", "cislo"), ("headers", hdrs)] [.text v]

/-- An overflow-name cell. -/
def tdName (v : String) : Node :=
  .elem "td" [("class", "overflow_name")] [.text v]

/-- One party row: order number, name, votes — the portal's layout. -/
def partyTr (num name votes : String) : Node :=
  .elem "tr" [] [tdCislo "t1sa1" num, tdName name, tdCislo "t1sa2" votes]

/-- The summary table holding the three mandatory scalar cells. -/
def scalarTable (reg env val : String) : Node :=
  .elem "table" [] [.elem "tr" [] [tdScalar "sa2" reg, tdScalar "sa3" env, tdScalar "sa6" val]]

/-- One municipality row of a territorial-unit page. -/
def unitRow (href code name : String) : Node :=
  .elem "tr" [] [.elem "td" [("class", "cislo")] [.elem "a" [("href", href)] [.text code]],
    tdName name]

/-- The unit page of the running example: two municipalities. -/
def unitPage : Node :=
  .elem "html" [] [.elem "table" [] [unitRow "ps311?obec=1" "500054" "Querfurt",
    unitRow "ps311?obec=2" "500062" "Beispiel"]]

/-- A unit page with no qualifying row (its only row has no cislo
cell). -/
def unitPageEmpty : Node :=
  .elem "html" [] [.elem "table" [] [.elem "tr" [] [tdName "kein Code"]]]

def exUrl : String := "https://www.volby.cz/pls/ps2017nss/ps32?xjazyk=CZ"

def obecUrl1 : String := "https://www.volby.cz/pls/ps2017nss/ps311?obec=1"

def obecUrl2 : String := "https://www.volby.cz/pls/ps2017nss/ps311?obec=2"

/-- Municipality A: two parties. -/
def pageA : Node :=
  .elem "html" [] [scalarTable "1000" "800" "790",
    .elem "table" [] [partyTr "1" "Strana X" "400", partyTr "2" "Strana Y" "390"]]

/-- Municipality B: the same two parties. -/
def pageB : Node :=
  .elem "html" [] [scalarTable "2000" "1500" "1480",
    .elem "table" [] [partyTr "1" "Strana X" "700", partyTr "2" "Strana Y" "780"]]

/-- A municipality page listing only one party — fewer party rows than
the first municipality's page. -/
def pageShort : Node :=
  .elem "html" [] [scalarTable "2000" "1500" "1480",
    .elem "table" [] [partyTr "1" "Strana X" "700"]]

/-- A municipality page whose sa3 scalar cell is missing. -/
def pageNoSa3 : Node :=
  .elem "html" [] [.elem "table" [] [.elem "tr" [] [tdScalar "sa2" "10", tdScalar "sa6" "8"]],
    .elem "table" [] [partyTr "1" "Strana X" "5"]]

/-- The argument vector of the running example. -/
def exArgv : List String := ["main.py", exUrl, "vysledky.csv"]

/-- The well-behaved network of the running example. -/
def exFetch : Fetch := fun url =>
  if url = exUrl then .ok unitPage
  else if url = obecUrl1 then .ok pageA
  else if url = obecUrl2 then .ok pageB
  else .error (.http "404")

/-- A network in which the second municipality's page lists fewer
parties than the first's. -/
def shortFetch : Fetch := fun url =>
  if url = exUrl then .ok unitPage
  else if url = obecUrl1 then .ok pageA
  else if url = obecUrl2 then .ok pageShort
  else .error (.http "404")

/-- A network in which the second municipality's page lacks a mandatory
scalar cell. -/
def noSa3Fetch : Fetch := fun url =>
  if url = exUrl then .ok unitPage
  else if url = obecUrl1 then .ok pageA
  else if url = obecUrl2 then .ok pageNoSa3
  else .error (.http "404")

/-- A network whose unit page has no qualifying municipality row. -/
def emptyFetch : Fetch := fun url =>
  if url = exUrl then .ok unitPageEmpty
  else .error (.http "404")

/-- A page on which one row carries two overflow-name cells. -/
def twoNamesPage : Node :=
  .elem "html" [] [.elem "table" [] [.elem "tr" [] [tdName "A", tdName "B"]]]

/-- A page with two three-row party tables side by side. -/
def twoTablesPage : Node :=
  .elem "html" [] [
    .elem "table" [] [partyTr "1" "A1" "10", partyTr "2" "A2" "11", partyTr "3" "A3" "12"],
    .elem "table" [] [partyTr "4" "B1" "13", partyTr "5" "B2" "14", partyTr "6" "B3" "15"]]

/-- A unit page whose only row holds an anchor with an empty href. -/
def emptyHrefPage : Node :=
  .elem "html" [] [.elem "table" [] [unitRow "" "123" "Nullhausen"]]

/-- A page for the malformed-row scenario: the second party row has no
votes cell. -/
def malformedPage : Node :=
  .elem "html" [] [scalarTable "10" "9" "8",
    .elem "table" [] [partyTr "1" "P1" "5", .elem "tr" [] [tdName "P2"]]]

/-! ### Characterizing the link extractor -/

theorem get_obec_links_eq (soup : Node) (base_url : String) :
    get_obec_links soup base_url = (findTrs soup).filterMap (rowLink base_url) := by
  have hfun : (fun (results : List (String × String × String)) row =>
      match findFirst (isTdClass "cislo") row, findFirst (isTdClass "overflow_name") row with
      | some cislo_td, some name_td =>
        match findFirst (isTag "a") cislo_td with
        | some a =>
          match a.attr "href" with
          | some href =>
            if href ≠ "" then
              results ++ [(urljoin base_url href, pyStrip a.innerText, pyStrip name_td.innerText)]
            else results
          | none => results
        | none => results
      | _, _ => results)
    = fun (results : List (String × String × String)) row =>
        results ++ (rowLink base_url row).toList := by
    funext results row
    rw [rowLink]
    cases h1 : findFirst (isTdClass "cislo") row with
    | none => cases h2 : findFirst (isTdClass "overflow_name") row <;> simp
    | some cislo_td =>
      cases h2 : findFirst (isTdClass "overflow_name") row with
      | none => simp
      | some name_td =>
        cases h3 : findFirst (isTag "a") cislo_td with
        | none => simp [h3]
        | some a =>
          cases h4 : a.attr "href" with
          | none => simp [h3, h4]
          | some href =>
            by_cases h : href = "" <;> simp [h3, h4, h]
  rw [get_obec_links, hfun, foldl_append_init, flatten_toList, List.nil_append]

theorem length_filterMap_isSome {α β : Type} (f : α → Option β) (l : List α) :
    (l.filterMap f).length = (l.filter (fun x => (f x).isSome)).length := by
  induction l with
  | nil => rfl
  | cons x l ih =>
    rw [List.filterMap_cons, List.filter_cons]
    cases hx : f x <;> simp [hx, ih]

theorem rowLink_isSome (base_url : String) (row : Node) :
    (rowLink base_url row).isSome = rowQualifies row := by
  rw [rowLink, rowQualifies]
  cases h1 : findFirst (isTdClass "cislo") row with
  | none => cases h2 : findFirst (isTdClass "overflow_name") row <;> simp
  | some cislo_td =>
    cases h2 : findFirst (isTdClass "overflow_name") row with
    | none => simp
    | some name_td =>
      cases h3 : findFirst (isTag "a") cislo_td with
      | none => simp [h3]
      | some a =>
        cases h4 : a.attr "href" with
        | none => simp [h3, h4]
        | some href =>
          by_cases h : href = "" <;> simp [h3, h4, h, bne_iff_ne]

/-- Any list containing the scheme separator splits at it. -/
theorem breakScheme_marker (a b : List Char) :
    (breakScheme (a ++ ':' :: '/' :: '/' :: b)).isSome = true := by
  induction a with
  | nil =>
    rw [List.nil_append, breakScheme]
    simp
  | cons c a ih =>
    rw [List.cons_append, breakScheme]
    by_cases hc : c = ':' ∧ (a ++ ':' :: '/' :: '/' :: b).head? = some '/' ∧
        (a ++ ':' :: '/' :: '/' :: b).tail.head? = some '/'
    · rw [if_pos hc]
      simp
    · rw [if_neg hc]
      simp [Option.isSome_map, ih]

/-- urljoin yields an absolute URL whenever the base is absolute. -/
theorem urljoin_abs (base href : String) (hb : isAbsUrl base = true) :
    isAbsUrl (urljoin base href) = true := by
  rw [isAbsUrl] at hb ⊢
  rw [urljoin]
  show (breakScheme (urljoinL base.data href.data)).isSome = true
  rw [urljoinL]
  by_cases h1 : (breakScheme href.data).isSome = true
  · rw [if_pos h1]
    exact h1
  · rw [if_neg h1]
    cases hb2 : breakScheme base.data with
    | none =>
      rw [hb2] at hb
      simp at hb
    | some pr =>
      obtain ⟨scheme, rest⟩ := pr
      simp only [hb2]
      by_cases hh : href.data.head? = some '/'
      · rw [if_pos hh]
        simp only [List.append_assoc, List.cons_append]
        exact breakScheme_marker scheme _
      · rw [if_neg hh]
        simp only [List.append_assoc, List.cons_append]
        exact breakScheme_marker scheme _

/-- Everything get_obec_links emits is the resolution of some row's
href. -/
theorem rowLink_mem_url (base_url : String) (row : Node) (x : String × String × String)
    (h : rowLink base_url row = some x) : ∃ href code name, x = (urljoin base_url href, code, name) := by
  rw [rowLink] at h
  cases h1 : findFirst (isTdClass "cislo") row with
  | none =>
    cases h2 : findFirst (isTdClass "overflow_name") row <;> simp [h1, h2] at h
  | some cislo_td =>
    cases h2 : findFirst (isTdClass "overflow_name") row with
    | none => simp [h1, h2] at h
    | some name_td =>
      cases h3 : findFirst (isTag "a") cislo_td with
      | none => simp [h1, h2, h3] at h
      | some a =>
        cases h4 : a.attr "href" with
        | none => simp [h1, h2, h3, h4] at h
        | some href =>
          by_cases hne : href = ""
          · simp [h1, h2, h3, h4, hne] at h
          · simp only [h1, h2, h3, h4, if_pos hne] at h
            cases h
            exact ⟨href, _, _, rfl⟩

/-! ### The claims -/

/-- C2: for every parsed municipality result page, parse_obec_data's
vote-count segment (the entries after the three scalars) is exactly one
value per party row of that page — the rows containing an overflow_name
cell, across all tables — and a party row with no cislo cell whose
headers tokens end in sa2 contributes the empty-string placeholder at
its position rather than being omitted. -/
theorem c2_vote_segment_per_page (soup : Node) (r : List String)
    (h : parse_obec_body soup = some r) :
    r.drop 3 = (partyRows soup).map voteValue ∧
      (r.drop 3).length = (partyRows soup).length := by
  obtain ⟨v, o, p, _, _, _, hr⟩ := parse_obec_body_some soup r h
  subst hr
  have hdrop : ([v, o, p] ++ hlasyOf soup).drop 3 = hlasyOf soup := by
    simp
  rw [hdrop, hlasyOf_eq]
  exact ⟨rfl, by rw [List.length_map]⟩

theorem c2_witness :
    (["10", "9", "8", "5", ""] : List String).drop 3 = (partyRows malformedPage).map voteValue ∧
      ((["10", "9", "8", "5", ""] : List String).drop 3).length = (partyRows malformedPage).length :=
  c2_vote_segment_per_page malformedPage ["10", "9", "8", "5", ""] (by decide)

/-- C3 (counterexample): on a page whose single row carries two
overflow-name cells, get_party_names records only the first cell's text,
not the text of every overflow-name cell encountered while scanning
tables and rows as the claim states. -/
theorem c3_counterexample :
    get_party_names twoNamesPage = ["A"] ∧ allOverflowNames twoNamesPage = ["A", "B"] ∧
      get_party_names twoNamesPage ≠ allOverflowNames twoNamesPage := by
  refine ⟨by decide, by decide, ?_⟩
  decide

/-- C3 (amended): get_party_names, applied to a parsed municipality
page, returns for every table and every row within it, in document
order, the trimmed text of the row's first overflow-name cell (a row
without one contributes nothing), concatenated across table boundaries —
a page with two 3-row party tables yields a 6-element list in
table-then-row order — with duplicates preserved. -/
theorem c3_first_name_per_row :
    (∀ soup : Node, get_party_names soup =
      ((findTables soup).map (fun t => (findTrs t).filterMap rowPartyName)).flatten) ∧
    get_party_names twoTablesPage = ["A1", "A2", "A3", "B1", "B2", "B3"] :=
  ⟨get_party_names_eq, by decide⟩

/-- C4 (counterexample): a unit-page row whose cislo cell holds an
anchor with an href attribute that is the empty string qualifies under
the claim's reading, yet get_obec_links emits no triple for it: the
code's truth test rejects an empty href. -/
theorem c4_counterexample :
    get_obec_links emptyHrefPage exUrl = [] ∧
      ((findTrs emptyHrefPage).filter specRowQualifies).length = 1 := by
  constructor
  · decide
  · decide

/-- C4 (amended): get_obec_links emits exactly one (URL, code, name)
triple per qualifying row — a row with a cislo cell and an overflow-name
cell whose cislo cell holds an anchor with a NON-EMPTY href — in
document order of the matching rows, each URL resolved against the base
URL, and absolute whenever the base URL is absolute. -/
theorem c4_links_characterization (soup : Node) (base_url : String) :
    get_obec_links soup base_url = (findTrs soup).filterMap (rowLink base_url) ∧
    (get_obec_links soup base_url).length = ((findTrs soup).filter rowQualifies).length ∧
    (isAbsUrl base_url = true → ∀ x ∈ get_obec_links soup base_url, isAbsUrl x.1 = true) := by
  refine ⟨get_obec_links_eq soup base_url, ?_, ?_⟩
  · rw [get_obec_links_eq, length_filterMap_isSome]
    congr 1
    apply List.filter_congr
    intro row _
    exact rowLink_isSome base_url row
  · intro hb x hx
    rw [get_obec_links_eq] at hx
    obtain ⟨row, hrow, hlink⟩ := List.mem_filterMap.mp hx
    obtain ⟨href, code, name, hx1⟩ := rowLink_mem_url base_url row x hlink
    rw [hx1]
    exact urljoin_abs base_url href hb

theorem c4_witness :
    get_obec_links unitPage exUrl = (findTrs unitPage).filterMap (rowLink exUrl) ∧
    (get_obec_links unitPage exUrl).length = ((findTrs unitPage).filter rowQualifies).length ∧
    (∀ x ∈ get_obec_links unitPage exUrl, isAbsUrl x.1 = true) :=
  ⟨(c4_links_characterization unitPage exUrl).1,
   (c4_links_characterization unitPage exUrl).2.1,
   (c4_links_characterization unitPage exUrl).2.2 (by decide)⟩

/-- C5: validate_arguments accepts exactly the argument vectors with two
arguments after the program name whose URL starts with the
territorial-unit path and whose output name ends in .csv; on any
violation it prints a diagnostic and returns False. -/
theorem c5_validator (args : List String) :
    ((validate_arguments args).1 = true ↔
      ∃ p u o, args = [p, u, o] ∧ pyStartsWith u requiredUrlStart = true ∧
        pyEndsWith o ".csv" = true) ∧
    ((validate_arguments args).1 = false → (validate_arguments args).2 ≠ []) := by
  refine ⟨validate_arguments_true_iff args, ?_⟩
  intro hfalse
  rw [validate_arguments] at hfalse ⊢
  by_cases h1 : args.length ≠ 3
  · rw [if_pos h1]
    simp
  · rw [if_neg h1] at hfalse ⊢
    by_cases h2 : (!pyStartsWith (args.getD 1 "") requiredUrlStart) = true
    · rw [if_pos h2]
      simp
    · rw [if_neg h2] at hfalse ⊢
      by_cases h3 : (!pyEndsWith (args.getD 2 "") ".csv") = true
      · rw [if_pos h3]
        simp
      · rw [if_neg h3] at hfalse
        simp at hfalse

theorem c5_witness :
    (validate_arguments exArgv).1 = true ∧
    (validate_arguments ["main.py", "http://example.org", "v.csv"]).2 ≠ [] :=
  ⟨(c5_validator exArgv).1.mpr ⟨"main.py", exUrl, "vysledky.csv", rfl, by decide, by decide⟩,
   (c5_validator ["main.py", "http://example.org", "v.csv"]).2 (by decide)⟩

/-- C9: re-parsing the file content produced by save_to_csv as standard
delimited text yields exactly the header and rows passed in,
field-for-field, for every header and every list of rows — fields
containing delimiters, quotes or line breaks included. -/
theorem c9_round_trip (header : List String) (rows : List (List String)) :
    csvParse (save_to_csv header rows) = header :: rows := by
  rw [save_to_csv, csvParse]
  have hdata : (⟨csvWriteL ((header :: rows).map (fun r => r.map String.data))⟩ : String).data
      = csvWriteL ((header :: rows).map (fun r => r.map String.data)) := rfl
  rw [hdata, parseRows_csvWriteL, List.map_map]
  have hid : ∀ r : List String,
      ((fun (r2 : List (List Char)) => r2.map (fun f => (⟨f⟩ : String))) ∘
        (fun (r2 : List String) => r2.map String.data)) r = r := by
    intro r
    simp only [Function.comp_apply, List.map_map]
    have hcomp : ((fun f => (⟨f⟩ : String)) ∘ String.data) = id := funext fun s => rfl
    rw [hcomp, List.map_id]
  rw [List.map_congr_left (fun r _ => hid r)]
  simp

/-- C10: on every parsed municipality page the party-name pass and the
vote-count pass see exactly the same rows, so the vote segment has
exactly one entry per extracted party name; hence a data row parsed from
a page structurally identical to the first municipality's has exactly as
many columns as the output header. -/
theorem c10_header_row_alignment (soup : Node) :
    (hlasyOf soup).length = (get_party_names soup).length ∧
    ∀ r, parse_obec_body soup = some r → ∀ code name : String,
      ([code, name] ++ r).length = (csvHeaderBase ++ get_party_names soup).length := by
  have h1 : (hlasyOf soup).length = (get_party_names soup).length := by
    rw [hlasyOf_length, get_party_names_length]
  refine ⟨h1, ?_⟩
  intro r hr code name
  obtain ⟨v, o, p, _, _, _, hreq⟩ := parse_obec_body_some soup r hr
  subst hreq
  simp only [csvHeaderBase, List.length_append, List.length_cons, List.length_nil]
  omega

theorem c10_witness :
    (hlasyOf pageA).length = (get_party_names pageA).length ∧
    ((["500054", "Querfurt"] ++ ["1000", "800", "790", "400", "390"]).length =
      (csvHeaderBase ++ get_party_names pageA).length) :=
  ⟨(c10_header_row_alignment pageA).1,
   (c10_header_row_alignment pageA).2 ["1000", "800", "790", "400", "390"] (by decide)
     "500054" "Querfurt"⟩

/-- C1 (counterexample): a run in which the second municipality's page
lists one party while the first page — the one PartyList is derived
from — lists two: the run still saves, and the second ResultRow's
vote-count segment has length 1, not the PartyList length 2; no
empty-string placeholder fills the missing position. -/
theorem c1_counterexample :
    mainRun shortFetch exArgv = RunOutcome.saved "vysledky.csv"
      (["code", "location", "registered", "envelopes", "valid"] ++ ["Strana X", "Strana Y"])
      [["500054", "Querfurt", "1000", "800", "790", "400", "390"],
       ["500062", "Beispiel", "2000", "1500", "1480", "700"]]
      ["🔄 Načítám hlavní stránku...", "📋 Načítám názvy stran z první obce...",
       "📥 1/2 Zpracovávám: Querfurt", "📥 2/2 Zpracovávám: Beispiel",
       "✅ Hotovo! Výsledky byly uloženy do souboru: vysledky.csv"] ∧
    get_party_names pageA = ["Strana X", "Strana Y"] ∧
    ((["500062", "Beispiel", "2000", "1500", "1480", "700"] : List String).drop 5).length ≠
      (["Strana X", "Strana Y"] : List String).length := by
  refine ⟨?_, by decide, by decide⟩
  decide

/-- C1 (amended): in every run that saves, each municipality's
ResultRow vote-count segment (the positions after code, name and the
three scalar counters) is exactly one entry per party row of that
municipality's OWN page — with an empty-string placeholder for a party
row whose votes cell is missing, never a shorter row; the segment's
length matches the first page's PartyList only when the page lists as
many party rows. -/
theorem c1_vote_segment_matches_own_page (fetch : Fetch) (argv : List String) (f : String)
    (h : List String) (d : List (List String)) (m : List String)
    (hsaved : mainRun fetch argv = RunOutcome.saved f h d m) :
    ∃ main_soup, fetch (argv.getD 1 "") = Except.ok main_soup ∧
      d.length = (get_obec_links main_soup (argv.getD 1 "")).length ∧
      ∀ (i : Nat) (x : String × String × String) (soupx : Node),
        (get_obec_links main_soup (argv.getD 1 ""))[i]? = some x →
        fetch x.1 = Except.ok soupx →
        ∃ row, d[i]? = some row ∧ row.drop 5 = (partyRows soupx).map voteValue := by
  obtain ⟨main_soup, first_soup, hfm, hne, hfirst, hf, hh, hd, hall⟩ :=
    mainRun_saved_inv fetch argv f h d m hsaved
  refine ⟨main_soup, hfm, by rw [hd, List.length_map], ?_⟩
  intro i x soupx hix hfx
  obtain ⟨r, hr⟩ := hall x (List.getElem?_mem hix)
  obtain ⟨soup2, hfx2, hbody⟩ := parse_obec_data_ok fetch x.1 r hr
  rw [hfx] at hfx2
  cases hfx2
  obtain ⟨v, o, p, _, _, _, hreq⟩ := parse_obec_body_some soupx r hbody
  refine ⟨[x.2.1, x.2.2] ++ r, ?_, ?_⟩
  · rw [hd, List.getElem?_map, hix]
    show some (obecRow fetch x) = some ([x.2.1, x.2.2] ++ r)
    rw [show obecRow fetch x = [x.2.1, x.2.2] ++ r from by rw [obecRow, hr]]
  · rw [hreq, ← hlasyOf_eq]
    simp

theorem c1_witness :
    ∃ main_soup, shortFetch (exArgv.getD 1 "") = Except.ok main_soup ∧
      ([["500054", "Querfurt", "1000", "800", "790", "400", "390"],
        ["500062", "Beispiel", "2000", "1500", "1480", "700"]] : List (List String)).length =
        (get_obec_links main_soup (exArgv.getD 1 "")).length ∧
      ∀ (i : Nat) (x : String × String × String) (soupx : Node),
        (get_obec_links main_soup (exArgv.getD 1 ""))[i]? = some x →
        shortFetch x.1 = Except.ok soupx →
        ∃ row, ([["500054", "Querfurt", "1000", "800", "790", "400", "390"],
          ["500062", "Beispiel", "2000", "1500", "1480", "700"]] : List (List String))[i]? =
            some row ∧
          row.drop 5 = (partyRows soupx).map voteValue :=
  c1_vote_segment_matches_own_page shortFetch exArgv "vysledky.csv"
    (["code", "location", "registered", "envelopes", "valid"] ++ ["Strana X", "Strana Y"])
    [["500054", "Querfurt", "1000", "800", "790", "400", "390"],
     ["500062", "Beispiel", "2000", "1500", "1480", "700"]]
    ["🔄 Načítám hlavní stránku...", "📋 Načítám názvy stran z první obce...",
     "📥 1/2 Zpracovávám: Querfurt", "📥 2/2 Zpracovávám: Beispiel",
     "✅ Hotovo! Výsledky byly uloženy do souboru: vysledky.csv"] (by decide)

/-- C6: on every run that saves, the header is exactly code, location,
registered, envelopes, valid followed by the party names extracted from
the first municipality's page, the file name is the second argument, and
there is exactly one data row per municipality in encounter order, each
being code and name followed by that municipality's parsed values. -/
theorem c6_output_table (fetch : Fetch) (argv : List String) (f : String)
    (h : List String) (d : List (List String)) (m : List String)
    (hsaved : mainRun fetch argv = RunOutcome.saved f h d m) :
    ∃ main_soup first_soup,
      fetch (argv.getD 1 "") = Except.ok main_soup ∧
      fetch ((get_obec_links main_soup (argv.getD 1 "")).headD ("", "", "")).1 =
        Except.ok first_soup ∧
      f = argv.getD 2 "" ∧
      h = ["code", "location", "registered", "envelopes", "valid"] ++
        get_party_names first_soup ∧
      d.length = (get_obec_links main_soup (argv.getD 1 "")).length ∧
      ∀ (i : Nat) (x : String × String × String),
        (get_obec_links main_soup (argv.getD 1 ""))[i]? = some x →
        ∃ r, parse_obec_data fetch x.1 = Except.ok r ∧ d[i]? = some ([x.2.1, x.2.2] ++ r) := by
  obtain ⟨main_soup, first_soup, hfm, hne, hfirst, hf, hh, hd, hall⟩ :=
    mainRun_saved_inv fetch argv f h d m hsaved
  refine ⟨main_soup, first_soup, hfm, hfirst, hf, hh, by rw [hd, List.length_map], ?_⟩
  intro i x hix
  obtain ⟨r, hr⟩ := hall x (List.getElem?_mem hix)
  refine ⟨r, hr, ?_⟩
  rw [hd, List.getElem?_map, hix]
  show some (obecRow fetch x) = some ([x.2.1, x.2.2] ++ r)
  rw [show obecRow fetch x = [x.2.1, x.2.2] ++ r from by rw [obecRow, hr]]

theorem c6_witness :
    ∃ main_soup first_soup,
      exFetch (exArgv.getD 1 "") = Except.ok main_soup ∧
      exFetch ((get_obec_links main_soup (exArgv.getD 1 "")).headD ("", "", "")).1 =
        Except.ok first_soup ∧
      "vysledky.csv" = exArgv.getD 2 "" ∧
      (["code", "location", "registered", "envelopes", "valid"] ++ ["Strana X", "Strana Y"]
        : List String) =
        ["code", "location", "registered", "envelopes", "valid"] ++
          get_party_names first_soup ∧
      ([["500054", "Querfurt", "1000", "800", "790", "400", "390"],
        ["500062", "Beispiel", "2000", "1500", "1480", "700", "780"]]
          : List (List String)).length =
        (get_obec_links main_soup (exArgv.getD 1 "")).length ∧
      ∀ (i : Nat) (x : String × String × String),
        (get_obec_links main_soup (exArgv.getD 1 ""))[i]? = some x →
        ∃ r, parse_obec_data exFetch x.1 = Except.ok r ∧
          ([["500054", "Querfurt", "1000", "800", "790", "400", "390"],
            ["500062", "Beispiel", "2000", "1500", "1480", "700", "780"]]
              : List (List String))[i]? = some ([x.2.1, x.2.2] ++ r) :=
  c6_output_table exFetch exArgv "vysledky.csv"
    (["code", "location", "registered", "envelopes", "valid"] ++ ["Strana X", "Strana Y"])
    [["500054", "Querfurt", "1000", "800", "790", "400", "390"],
     ["500062", "Beispiel", "2000", "1500", "1480", "700", "780"]]
    ["🔄 Načítám hlavní stránku...", "📋 Načítám názvy stran z první obce...",
     "📥 1/2 Zpracovávám: Querfurt", "📥 2/2 Zpracovávám: Beispiel",
     "✅ Hotovo! Výsledky byly uloženy do souboru: vysledky.csv"] (by decide)

/-- C7: with well-formed arguments, if the unit-page fetch fails, or any
municipality page's fetch fails or lacks one of the three mandatory
scalar cells (sa2, sa3, sa6), the run ends in an uncaught exception and
never reaches save_to_csv: no output, not even partial, is recorded. -/
theorem c7_failure_propagates (fetch : Fetch) (p u o : String)
    (hu : pyStartsWith u requiredUrlStart = true)
    (ho : pyEndsWith o ".csv" = true)
    (hfail : (∃ e, fetch u = Except.error e) ∨
      (∃ main_soup, fetch u = Except.ok main_soup ∧
        get_obec_links main_soup u ≠ [] ∧
        ∃ x ∈ get_obec_links main_soup u, ∃ e,
          parse_obec_data fetch x.1 = Except.error e)) :
    (∃ msgs e, mainRun fetch [p, u, o] = RunOutcome.raised msgs e) ∧
    ∀ (fn : String) (hd : List String) (dt : List (List String)) (ms : List String),
      mainRun fetch [p, u, o] ≠ RunOutcome.saved fn hd dt ms := by
  have hr := mainRun_raised fetch p u o hu ho hfail
  refine ⟨hr, ?_⟩
  obtain ⟨msgs, e, he⟩ := hr
  intro fn hd dt ms hcontra
  rw [he] at hcontra
  exact RunOutcome.noConfusion hcontra

theorem c7_witness :
    (∃ msgs e, mainRun noSa3Fetch ["main.py", exUrl, "vysledky.csv"] =
      RunOutcome.raised msgs e) ∧
    ∀ (fn : String) (hd : List String) (dt : List (List String)) (ms : List String),
      mainRun noSa3Fetch ["main.py", exUrl, "vysledky.csv"] ≠
        RunOutcome.saved fn hd dt ms :=
  c7_failure_propagates noSa3Fetch "main.py" exUrl "vysledky.csv" (by decide) (by decide)
    (Or.inr ⟨unitPage, rfl,
      by decide,
      ⟨(obecUrl2, "500062", "Beispiel"), by decide, Err.attributeError, rfl⟩⟩)

/-- C8: with well-formed arguments, a unit page yielding zero qualifying
municipality rows makes the run print the no-municipalities diagnostic
and return normally — neither raising nor writing a file — and its
outcome does not depend on what any other URL would fetch, so no
municipality page is consulted. -/
theorem c8_empty_discovery (fetch : Fetch) (p u o : String) (main_soup : Node)
    (hu : pyStartsWith u requiredUrlStart = true)
    (ho : pyEndsWith o ".csv" = true)
    (hmain : fetch u = Except.ok main_soup)
    (hempty : get_obec_links main_soup u = []) :
    mainRun fetch [p, u, o] =
      RunOutcome.noObce ["🔄 Načítám hlavní stránku...", "❌ Žádné obce nebyly nalezeny."] ∧
    ∀ fetch2 : Fetch, fetch2 u = Except.ok main_soup →
      mainRun fetch2 [p, u, o] = mainRun fetch [p, u, o] := by
  have h1 := mainRun_noObce fetch p u o main_soup hu ho hmain hempty
  refine ⟨h1, fun fetch2 h2 => ?_⟩
  rw [h1, mainRun_noObce fetch2 p u o main_soup hu ho h2 hempty]

theorem c8_witness :
    mainRun emptyFetch ["main.py", exUrl, "vysledky.csv"] =
      RunOutcome.noObce ["🔄 Načítám hlavní stránku...", "❌ Žádné obce nebyly nalezeny."] ∧
    ∀ fetch2 : Fetch, fetch2 exUrl = Except.ok unitPageEmpty →
      mainRun fetch2 ["main.py", exUrl, "vysledky.csv"] =
        mainRun emptyFetch ["main.py", exUrl, "vysledky.csv"] :=
  c8_empty_discovery emptyFetch "main.py" exUrl "vysledky.csv" unitPageEmpty
    (by decide) (by decide) rfl (by decide)

end Volby
